import Mathlib

/-!
Verification of the core pipeline of the radiology batch-analysis app:
partitioning (`ImageProcessor.createBatches`), the API client's retry and
error-classification logic (`RadiologyAPIClient.makeAPIRequest`,
`isRetryableError`), the response parser (`extractSections`,
`parseAnalysisResponse`), the report aggregator
(`generateConsolidatedReport`), the progress counters of `startAnalysis` /
`processBatch`, and the concurrency-bounded scheduling loop of
`startAnalysis`.

All definitions are shallow embeddings of the TypeScript source
(`lib/image-processing.ts`, `lib/api-client.ts`, `hooks/use-upload.ts`,
`lib/types.ts`).  JavaScript strings are modelled as Lean `String` /
`List Char`, machine numbers as `Nat`, `undefined`-able fields as `Option`,
thrown exceptions as `Except`, and the nondeterminism of the network as an
explicit oracle argument.
-/

/-! ## Data model (lib/types.ts) -/

/-- Status union used by both `UploadedImage` and `ImageBatch` in
`lib/types.ts` (`'pending' | 'processing' | 'completed' | 'error'`). -/
inductive Status where
  | pending
  | processing
  | completed
  | error
deriving DecidableEq, Repr

/-- `UploadedImage` from `lib/types.ts`.  The `File` payload and `preview`
URL are irrelevant to the verified logic and are left out; `error` is the
optional error text. -/
structure UploadedImage where
  id : String
  size : Nat
  type : String
  name : String
  status : Status
  error : Option String := none
deriving DecidableEq, Repr

/-- `DiagnosticResult` from `lib/types.ts`. -/
structure DiagnosticResult where
  batchId : String
  imageCount : Nat
  findings : String
  recommendations : String
  confidence : String
  technicalNotes : Option String
  processingTime : Nat
deriving DecidableEq, Repr

/-- `ImageBatch` from `lib/types.ts`.  The source id is
`batch-${i/batchSize + 1}-${Date.now()}`; the wall-clock suffix is
abstracted away and `idNum` keeps the 1-based position. -/
structure ImageBatch where
  idNum : Nat
  images : List UploadedImage
  status : Status
  result : Option DiagnosticResult := none
  error : Option String := none
deriving DecidableEq, Repr

/-- `DEFAULT_CONFIG.batchSize` from `lib/types.ts`. -/
def batchSizeDefault : Nat := 20

/-! ## Partitioner (`ImageProcessor.createBatches`, lib/image-processing.ts
lines 103-118) -/

/-- The chunking loop of `createBatches`:
`for (let i = 0; i < validImages.length; i += batchSize)` pushing
`validImages.slice(i, i + batchSize)` each iteration.  For `bs = 0` the
JavaScript loop would not terminate; the embedding returns `[]` in that
(never exercised) case — the app always calls it with `batchSize = 20`. -/
def chunkLoop (bs : Nat) (l : List UploadedImage) : List (List UploadedImage) :=
  if hl : l = [] then []
  else if hb : bs = 0 then []
  else l.take bs :: chunkLoop bs (l.drop bs)
termination_by l.length
decreasing_by
  simp only [List.length_drop]
  have : l.length ≠ 0 := fun h => hl (List.eq_nil_of_length_eq_zero h)
  omega

/-- `ImageProcessor.createBatches`: drops images whose `status` is
`'error'`, then slices the remainder into consecutive chunks of
`batchSize`, each becoming a fresh `pending` batch numbered from 1. -/
def createBatches (images : List UploadedImage) (batchSize : Nat := batchSizeDefault) :
    List ImageBatch :=
  let validImages := images.filter (fun img => img.status ≠ Status.error)
  (chunkLoop batchSize validImages).enum.map
    (fun p => { idNum := p.1 + 1, images := p.2, status := Status.pending })

lemma chunkLoop_nil (bs : Nat) : chunkLoop bs [] = [] := by
  rw [chunkLoop]
  simp

lemma chunkLoop_cons (bs : Nat) (l : List UploadedImage) (hl : l ≠ []) (hb : bs ≠ 0) :
    chunkLoop bs l = l.take bs :: chunkLoop bs (l.drop bs) := by
  rw [chunkLoop]
  simp [hl, hb]

lemma chunkLoop_join (bs : Nat) (l : List UploadedImage) (hb : bs ≠ 0) :
    (chunkLoop bs l).flatten = l := by
  by_cases hl : l = []
  · subst hl
    simp [chunkLoop_nil]
  · rw [chunkLoop_cons bs l hl hb]
    have ih := chunkLoop_join bs (l.drop bs) hb
    simp [ih]
termination_by l.length
decreasing_by
  simp only [List.length_drop]
  have : l.length ≠ 0 := fun h => hl (List.eq_nil_of_length_eq_zero h)
  omega

lemma chunkLoop_length (bs : Nat) (l : List UploadedImage) (hb : bs ≠ 0) :
    (chunkLoop bs l).length = (l.length + bs - 1) / bs := by
  by_cases hl : l = []
  · subst hl
    have hz : (bs - 1) / bs = 0 := Nat.div_eq_of_lt (by omega)
    simp [chunkLoop_nil, hz]
  · rw [chunkLoop_cons bs l hl hb]
    have ih := chunkLoop_length bs (l.drop bs) hb
    simp only [List.length_cons, ih, List.length_drop]
    have hpos : 0 < l.length := List.length_pos.mpr hl
    rcases Nat.lt_or_ge l.length bs with hlt | hge
    · have h1 : l.length - bs = 0 := by omega
      rw [h1]
      have h2 : (l.length + bs - 1) / bs = 1 :=
        Nat.div_eq_of_lt_le (by omega) (by omega)
      have h3 : (0 + bs - 1) / bs = 0 := by
        apply Nat.div_eq_of_lt
        omega
      omega
    · have h1 : l.length - bs + bs - 1 + bs = l.length + bs - 1 := by omega
      rw [← h1, Nat.add_div_right _ (Nat.pos_of_ne_zero hb)]
termination_by l.length
decreasing_by
  simp only [List.length_drop]
  have : l.length ≠ 0 := fun h => hl (List.eq_nil_of_length_eq_zero h)
  omega

lemma chunkLoop_sizes (bs : Nat) (l : List UploadedImage) :
    ∀ c ∈ chunkLoop bs l, c.length ≤ bs := by
  intro c hc
  by_cases hl : l = []
  · subst hl
    simp [chunkLoop_nil] at hc
  · by_cases hb : bs = 0
    · subst hb
      rw [chunkLoop] at hc
      simp [hl] at hc
    · rw [chunkLoop_cons bs l hl hb, List.mem_cons] at hc
      rcases hc with hc | hc
      · subst hc
        simpa using List.length_take_le bs l
      · exact chunkLoop_sizes bs (l.drop bs) c hc
termination_by l.length
decreasing_by
  simp only [List.length_drop]
  have : l.length ≠ 0 := fun h => hl (List.eq_nil_of_length_eq_zero h)
  omega

lemma chunkLoop_full (bs : Nat) (l : List UploadedImage) (hb : bs ≠ 0) :
    ∀ c ∈ (chunkLoop bs l).dropLast, c.length = bs := by
  intro c hc
  by_cases hl : l = []
  · subst hl
    simp [chunkLoop_nil] at hc
  · rw [chunkLoop_cons bs l hl hb] at hc
    rcases hrest : chunkLoop bs (l.drop bs) with _ | ⟨r, rs⟩
    · rw [hrest] at hc
      simp at hc
    · rw [hrest] at hc
      rw [List.dropLast_cons_of_ne_nil (by simp), List.mem_cons] at hc
      rcases hc with hc | hc
      · subst hc
        have hne : l.drop bs ≠ [] := by
          intro h
          rw [h, chunkLoop_nil] at hrest
          exact List.noConfusion hrest
        have : bs < l.length := by
          have := List.length_pos.mpr hne
          simp only [List.length_drop] at this
          omega
        simp [List.length_take]
        omega
      · have := chunkLoop_full bs (l.drop bs) hb
        rw [hrest] at this
        exact this c hc
termination_by l.length
decreasing_by
  simp only [List.length_drop]
  have : l.length ≠ 0 := fun h => hl (List.eq_nil_of_length_eq_zero h)
  omega

lemma createBatches_images_map (images : List UploadedImage) (bs : Nat)
    (h : ∀ img ∈ images, img.status ≠ Status.error) :
    (createBatches images bs).map ImageBatch.images
      = chunkLoop bs images := by
  have hfil : images.filter (fun img => img.status ≠ Status.error) = images := by
    rw [List.filter_eq_self]
    intro a ha
    simpa using h a ha
  unfold createBatches
  simp only [hfil, List.map_map]
  have : (ImageBatch.images ∘ fun p : Nat × List UploadedImage =>
      ({ idNum := p.1 + 1, images := p.2, status := Status.pending } : ImageBatch))
      = Prod.snd := by
    funext p
    rfl
  rw [this, List.enum_map_snd]

/-- C1: for a list of `M` valid (non-error) images and capacity `N = 20`,
`createBatches` yields `⌈M/N⌉ = (M + 19) / 20` batches, every batch holds at
most 20 images, every batch except possibly the last holds exactly 20,
concatenating the batches' image lists recovers the input, and an empty
input yields zero batches. -/
theorem createBatches_partition (images : List UploadedImage)
    (h : ∀ img ∈ images, img.status ≠ Status.error) :
    (createBatches images).length = (images.length + 19) / 20
    ∧ (∀ b ∈ createBatches images, b.images.length ≤ 20)
    ∧ (∀ b ∈ (createBatches images).dropLast, b.images.length = 20)
    ∧ ((createBatches images).map ImageBatch.images).flatten = images
    ∧ (images = [] → createBatches images = []) := by
  have hmap := createBatches_images_map images batchSizeDefault h
  have hlen : (createBatches images).length = (chunkLoop batchSizeDefault images).length := by
    rw [← hmap, List.length_map]
  refine ⟨?_, ?_, ?_, ?_, ?_⟩
  · rw [hlen, chunkLoop_length _ _ (by decide)]
    simp only [batchSizeDefault]
    omega
  · intro b hb
    have : b.images ∈ (createBatches images).map ImageBatch.images :=
      List.mem_map_of_mem _ hb
    rw [hmap] at this
    exact chunkLoop_sizes _ _ _ this
  · intro b hb
    have : b.images ∈ ((createBatches images).map ImageBatch.images).dropLast := by
      rw [← List.map_dropLast]
      exact List.mem_map_of_mem _ hb
    rw [hmap] at this
    exact chunkLoop_full _ _ (by decide) _ this
  · rw [hmap, chunkLoop_join _ _ (by decide)]
  · intro he
    subst he
    simp [createBatches, chunkLoop_nil]

/-- Witness for `createBatches_partition` at a concrete 3-image input. -/
theorem createBatches_partition_witness :
    (createBatches
      [ { id := "a", size := 1, type := "image/png", name := "a", status := Status.pending },
        { id := "b", size := 1, type := "image/png", name := "b", status := Status.pending },
        { id := "c", size := 1, type := "image/png", name := "c", status := Status.pending } ]).length
      = 1 := by
  have h := createBatches_partition
    [ { id := "a", size := 1, type := "image/png", name := "a", status := Status.pending },
      { id := "b", size := 1, type := "image/png", name := "b", status := Status.pending },
      { id := "c", size := 1, type := "image/png", name := "c", status := Status.pending } ]
    (by decide)
  rw [h.1]
  decide

/-! ## ResponseParser (`RadiologyAPIClient.extractSections` /
`parseAnalysisResponse`, lib/api-client.ts lines 413-463)

The four extraction regexes all have the shape
`/(?:H1|H2|H3):([\s\S]*?)(?=(?:K1|K2|$))/gi`: an alternation of heading
keywords, a required colon, a lazy capture, and a lookahead closing the
capture at the next keyword of a fixed set or at end of input.  The
embedding implements exactly this matching discipline over `List Char`:
scan left to right for the first position where some heading alternative
matches case-insensitively and is followed by `':'`, then extend the
capture minimally until the lookahead holds.  Because the regexes carry
the `g` flag, `text.match(pattern)` returns the list of *full match*
strings (no capture groups), which is what `allMatches` produces. -/

/-- Case-insensitive prefix test, mirroring the `i` regex flag
(per-character `toLower` comparison). -/
def startsWithCI : List Char → List Char → Bool
  | [], _ => true
  | _ :: _, [] => false
  | p :: ps, c :: cs => (p.toLower == c.toLower) && startsWithCI ps cs

/-- JavaScript line terminators, excluded by `.` in a regex without the
`s` flag. -/
def isJsLineTerm (c : Char) : Bool :=
  c == '\n' || c == '\r' || c == ' ' || c == ' '

/-- True when the list starts with `':'` — the mandatory colon after a
heading alternation in every extraction pattern. -/
def colonAfter : List Char → Bool
  | ':' :: _ => true
  | _ => false

/-- One heading alternative of an extraction pattern: either a literal
keyword, or the `FOLLOW.?UP` alternative of the recommendations pattern
(`FOLLOW`, then at most one non-line-terminator character, then `UP`). -/
inductive HeadAlt where
  | lit (s : List Char)
  | followUp
deriving DecidableEq, Repr

/-- Length of the heading matched by alternative `a` at the front of
`cs`, provided a `':'` follows (the regex backtracks out of the
alternative otherwise).  `FOLLOW.?UP` first tries the greedy one-character
`.?` and falls back to the empty one, as a regex engine does. -/
def altMatchLen (a : HeadAlt) (cs : List Char) : Option Nat :=
  match a with
  | .lit s => if startsWithCI s cs && colonAfter (cs.drop s.length) then some s.length else none
  | .followUp =>
    if startsWithCI "FOLLOW".toList cs then
      let rest := cs.drop 6
      let greedy := match rest with
        | c :: rest2 =>
          !(isJsLineTerm c) && startsWithCI "UP".toList rest2 && colonAfter (rest2.drop 2)
        | [] => false
      if greedy then some 9
      else if startsWithCI "UP".toList rest && colonAfter (rest.drop 2) then some 8
      else none
    else none

/-- First heading alternative (in pattern order) matching at the front of
`cs` with its colon, returning the matched heading length. -/
def findHead (alts : List HeadAlt) (cs : List Char) : Option Nat :=
  alts.findSome? (fun a => altMatchLen a cs)

/-- Lookahead test `(?=(?:K1|K2|$))`: end of input, or some keyword of
`looks` matching case-insensitively at this position. -/
def lookTest (looks : List (List Char)) (cs : List Char) : Bool :=
  cs.isEmpty || looks.any (fun a => startsWithCI a cs)

/-- Length of the lazy capture `([\s\S]*?)`: the number of characters
consumed before the lookahead first holds. -/
def scanCapture (looks : List (List Char)) : List Char → Nat
  | [] => 0
  | c :: cs => if lookTest looks (c :: cs) then 0 else scanCapture looks cs + 1

/-- First match of an extraction pattern in `cs`: scan positions left to
right; on a heading-plus-colon hit, capture lazily up to the lookahead.
Returns the full matched text and the remaining input (the `g` flag makes
the next search resume right after the full match). -/
def findMatchFrom (alts : List HeadAlt) (looks : List (List Char)) :
    List Char → Option (List Char × List Char)
  | [] => none
  | c :: cs =>
    match findHead alts (c :: cs) with
    | some hlen =>
      let cap := scanCapture looks ((c :: cs).drop (hlen + 1))
      some ((c :: cs).take (hlen + 1 + cap), (c :: cs).drop (hlen + 1 + cap))
    | none => findMatchFrom alts looks cs

/-- All full matches of an extraction pattern, in order — the value of
`text.match(pattern)` for a `g`-flagged pattern (`[]` standing for JS
`null`).  `fuel` bounds the recursion; every match consumes at least the
heading and its colon, so `cs.length + 1` fuel is always enough. -/
def allMatches (alts : List HeadAlt) (looks : List (List Char)) :
    Nat → List Char → List (List Char)
  | 0, _ => []
  | fuel + 1, cs =>
    match findMatchFrom alts looks cs with
    | none => []
    | some (full, rest) => full :: allMatches alts looks fuel rest

/-- JavaScript `String.prototype.trim` over the whitespace characters that
can occur here (ASCII whitespace and no-break space; the rarer Unicode
space classes never appear in the analysed strings). -/
def isJsWhite (c : Char) : Bool :=
  c == ' ' || c == '\t' || c == '\n' || c == '\r' || c == '\x0b' ||
  c == '\x0c' || c == ' ' || c == '﻿'

/-- List-level trim: drop `isJsWhite` characters from both ends. -/
def jsTrim (cs : List Char) : List Char :=
  ((cs.dropWhile isJsWhite).reverse.dropWhile isJsWhite).reverse

/-- One field of `extractSections`: the source runs
`const match = text.match(pattern); if (match && match[1])
sections[key] = match[1].trim();`.  With a `g`-flagged pattern `match` is
the array of full matches, so `match[1]` is the *second* full match — the
field is set only when the pattern matches at least twice, to the second
full match (heading and colon included) trimmed. -/
def extractField (alts : List HeadAlt) (looks : List (List Char)) (cs : List Char) :
    Option String :=
  match allMatches alts looks (cs.length + 1) cs with
  | _ :: m2 :: _ => if m2.isEmpty then none else some (String.mk (jsTrim m2))
  | _ => none

/-- Heading alternatives of the findings pattern:
`(?:DETAILED FINDINGS|FINDINGS|OBSERVATIONS):`. -/
def findingsAlts : List HeadAlt :=
  [.lit "DETAILED FINDINGS".toList, .lit "FINDINGS".toList, .lit "OBSERVATIONS".toList]

/-- Lookahead keywords of the findings pattern:
`(?=(?:CLINICAL SIGNIFICANCE|RECOMMENDATIONS|TECHNICAL NOTES|$))`. -/
def findingsLooks : List (List Char) :=
  ["CLINICAL SIGNIFICANCE".toList, "RECOMMENDATIONS".toList, "TECHNICAL NOTES".toList]

/-- Heading alternatives of the recommendations pattern:
`(?:RECOMMENDATIONS|NEXT STEPS|FOLLOW.?UP):`. -/
def recsAlts : List HeadAlt :=
  [.lit "RECOMMENDATIONS".toList, .lit "NEXT STEPS".toList, .followUp]

/-- Lookahead keywords of the recommendations pattern:
`(?=(?:TECHNICAL NOTES|CONFIDENCE|$))`. -/
def recsLooks : List (List Char) :=
  ["TECHNICAL NOTES".toList, "CONFIDENCE".toList]

/-- Heading alternatives of the confidence pattern:
`(?:CONFIDENCE|CERTAINTY|DIAGNOSTIC CONFIDENCE):`. -/
def confAlts : List HeadAlt :=
  [.lit "CONFIDENCE".toList, .lit "CERTAINTY".toList, .lit "DIAGNOSTIC CONFIDENCE".toList]

/-- Lookahead keywords of the confidence pattern:
`(?=(?:TECHNICAL NOTES|$))`. -/
def confLooks : List (List Char) :=
  ["TECHNICAL NOTES".toList]

/-- Heading alternatives of the technical-notes pattern:
`(?:TECHNICAL NOTES|TECHNICAL COMMENTS|IMAGE QUALITY):`. -/
def techAlts : List HeadAlt :=
  [.lit "TECHNICAL NOTES".toList, .lit "TECHNICAL COMMENTS".toList, .lit "IMAGE QUALITY".toList]

/-- The technical-notes pattern captures to end of input (`([\s\S]*?)$`):
no closing keywords. -/
def techLooks : List (List Char) := []

/-- Result of `extractSections`: the four optional section strings. -/
structure Sections where
  findings : Option String
  recommendations : Option String
  confidence : Option String
  technicalNotes : Option String
deriving DecidableEq, Repr

/-- `RadiologyAPIClient.extractSections` (lib/api-client.ts lines
439-463). -/
def extractSections (text : String) : Sections :=
  { findings := extractField findingsAlts findingsLooks text.data
    recommendations := extractField recsAlts recsLooks text.data
    confidence := extractField confAlts confLooks text.data
    technicalNotes := extractField techAlts techLooks text.data }

/-- JavaScript `a || b` on an optional string: `undefined` and the empty
string are falsy. -/
def orFallback (o : Option String) (d : String) : String :=
  match o with
  | none => d
  | some s => if s = "" then d else s

/-- `text.substring(0, n)`. -/
def substrTake (s : String) (n : Nat) : String :=
  String.mk (s.data.take n)

/-- `RadiologyAPIClient.parseAnalysisResponse` (lib/api-client.ts lines
416-434): fills a `DiagnosticResult` from the extracted sections with the
fixed fallbacks. -/
def parseAnalysisResponse (analysisText : String) (batchId : String)
    (imageCount : Nat) (processingTime : Nat) : DiagnosticResult :=
  let sections := extractSections analysisText
  { batchId := batchId
    imageCount := imageCount
    findings := orFallback sections.findings (substrTake analysisText 1000 ++ "...")
    recommendations := orFallback sections.recommendations
      "Please refer to detailed findings above."
    confidence := orFallback sections.confidence "Standard diagnostic confidence"
    technicalNotes := sections.technicalNotes
    processingTime := processingTime }

/-! ## AnalysisClient (`RadiologyAPIClient`, lib/api-client.ts lines
289-411 and 465-482)

A network attempt is nondeterministic; the embedding passes an oracle
`outcome : Nat → AttemptOutcome` giving the result of the attempt with
each `retryCount`.  A successful attempt carries
`response.choices[0]?.message?.content` as an `Option String` (`none` for
a malformed response with no textual content); a failed attempt carries
the thrown error's `name` and `message`. -/

/-- A thrown JavaScript error, reduced to the two fields
`isRetryableError` inspects. -/
structure ApiError where
  name : String
  message : String
deriving DecidableEq, Repr

/-- Result of one `fetch` + `response.json()` attempt. -/
inductive AttemptOutcome where
  | ok (content : Option String)
  | err (e : ApiError)
deriving DecidableEq, Repr

/-- `RadiologyAPIClient.MAX_RETRIES`. -/
def MAX_RETRIES : Nat := 3

/-- Exact (case-sensitive) prefix test on character lists, for JavaScript
`String.prototype.includes`. -/
def listStartsWith : List Char → List Char → Bool
  | [], _ => true
  | _ :: _, [] => false
  | p :: ps, c :: cs => (p == c) && listStartsWith ps cs

/-- Substring occurrence test on character lists. -/
def listContainsSeq (pat : List Char) : List Char → Bool
  | [] => listStartsWith pat []
  | c :: cs => listStartsWith pat (c :: cs) || listContainsSeq pat cs

/-- JavaScript `s.includes(pat)` (case-sensitive). -/
def strIncludes (s pat : String) : Bool :=
  listContainsSeq pat.data s.data

/-- `RadiologyAPIClient.isRetryableError` (lib/api-client.ts lines
468-475): an `AbortError` (the 5-minute timeout) is never retryable;
otherwise the error is retryable exactly when its message contains one of
the substrings `429`, `502`, `503` or `network`. -/
def isRetryableError (e : ApiError) : Bool :=
  if e.name == "AbortError" then false
  else if strIncludes e.message "429" then true
  else if strIncludes e.message "502" then true
  else if strIncludes e.message "503" then true
  else if strIncludes e.message "network" then true
  else false

/-- The error thrown for a non-ok HTTP response (lib/api-client.ts line
394): `new Error("API request failed: ${status} ${statusText} -
${errorText}")`. -/
def mkHttpError (status : Nat) (statusText bodyText : String) : ApiError :=
  { name := "Error"
    message := "API request failed: " ++ toString status ++ " " ++ statusText
      ++ " - " ++ bodyText }

/-- A transport-level `fetch` rejection (a `TypeError` whose message is
browser-dependent). -/
def mkTransportError (message : String) : ApiError :=
  { name := "TypeError", message := message }

/-- Trace of one `makeAPIRequest` call tree: the surfaced result, the
backoff delays performed (in milliseconds, in order), and the number of
attempts made. -/
structure RequestRun where
  result : Except ApiError (Option String)
  delays : List Nat
  attempts : Nat
deriving Repr

/-- `RadiologyAPIClient.makeAPIRequest` (lib/api-client.ts lines
378-411): on a failed attempt with `retryCount < MAX_RETRIES` and a
retryable error, wait `2^retryCount * 1000` ms and recurse with
`retryCount + 1`; otherwise surface the error.  A successful attempt
returns immediately. -/
def makeAPIRequest (outcome : Nat → AttemptOutcome) (retryCount : Nat) : RequestRun :=
  match outcome retryCount with
  | .ok c => { result := .ok c, delays := [], attempts := 1 }
  | .err e =>
    if h : retryCount < MAX_RETRIES ∧ isRetryableError e = true then
      let rest := makeAPIRequest outcome (retryCount + 1)
      { result := rest.result
        delays := (2 ^ retryCount * 1000) :: rest.delays
        attempts := rest.attempts + 1 }
    else { result := .error e, delays := [], attempts := 1 }
termination_by MAX_RETRIES - retryCount
decreasing_by
  have := h.1
  simp only [MAX_RETRIES] at *
  omega

/-- The `{success, result?, error?}` value returned by
`analyzeImageBatch` (`AnalysisResponse` in lib/types.ts; the error's
`code` is always `ANALYSIS_FAILED`). -/
structure AnalysisResponseM where
  success : Bool
  result : Option DiagnosticResult
  errorMessage : Option String
deriving DecidableEq, Repr

/-- `RadiologyAPIClient.analyzeImageBatch` (lib/api-client.ts lines
296-373), paired with the number of network attempts made.  Batch-size
validation happens before any attempt; a thrown or surfaced error is
caught and turned into a `success := false` response; missing or empty
textual content (`if (!analysisText)`) is a terminal error after a
successful exchange. -/
def analyzeImageBatch (numImages : Nat) (batchId : String)
    (outcome : Nat → AttemptOutcome) (processingTime : Nat) :
    AnalysisResponseM × Nat :=
  if numImages = 0 then
    ({ success := false, result := none,
       errorMessage := some "No images provided for analysis" }, 0)
  else if numImages > 20 then
    ({ success := false, result := none,
       errorMessage := some "Batch size exceeds maximum limit of 20 images" }, 0)
  else
    let run := makeAPIRequest outcome 0
    match run.result with
    | .error e =>
      ({ success := false, result := none, errorMessage := some e.message }, run.attempts)
    | .ok none =>
      ({ success := false, result := none,
         errorMessage := some "No analysis content received from API" }, run.attempts)
    | .ok (some t) =>
      if t = "" then
        ({ success := false, result := none,
           errorMessage := some "No analysis content received from API" }, run.attempts)
      else
        ({ success := true,
           result := some (parseAnalysisResponse t batchId numImages processingTime),
           errorMessage := none }, run.attempts)

/-! ## Parser lemmas and claims C4, C5, C10 -/

lemma allMatches_eq_nil (alts : List HeadAlt) (looks : List (List Char))
    (fuel : Nat) (cs : List Char)
    (h : findMatchFrom alts looks cs = none) :
    allMatches alts looks fuel cs = [] := by
  cases fuel with
  | zero => rfl
  | succ n =>
    unfold allMatches
    rw [h]

lemma extractField_eq_none (alts : List HeadAlt) (looks : List (List Char))
    (cs : List Char) (h : findMatchFrom alts looks cs = none) :
    extractField alts looks cs = none := by
  unfold extractField
  rw [allMatches_eq_nil _ _ _ _ h]

lemma append_dots_ne_empty (s : String) : s ++ "..." ≠ "" := by
  intro h
  have hlen := congrArg String.length h
  rw [String.length_append] at hlen
  have h3 : ("..." : String).length = 3 := rfl
  have h0 : ("" : String).length = 0 := rfl
  rw [h3, h0] at hlen
  omega

/-- C5: the response parser is total by construction and, for every input
string, yields a non-empty `findings` field; when a pattern finds no match
in the text the corresponding fixed fallback is used: truncated raw text
plus an ellipsis for `findings`, the fixed placeholder for
`recommendations`, the fixed default label for `confidence`, and `none`
for `technicalNotes`. -/
theorem parseAnalysisResponse_total (text batchId : String)
    (imageCount processingTime : Nat) :
    (parseAnalysisResponse text batchId imageCount processingTime).findings ≠ ""
    ∧ (findMatchFrom findingsAlts findingsLooks text.data = none →
        (parseAnalysisResponse text batchId imageCount processingTime).findings
          = substrTake text 1000 ++ "...")
    ∧ (findMatchFrom recsAlts recsLooks text.data = none →
        (parseAnalysisResponse text batchId imageCount processingTime).recommendations
          = "Please refer to detailed findings above.")
    ∧ (findMatchFrom confAlts confLooks text.data = none →
        (parseAnalysisResponse text batchId imageCount processingTime).confidence
          = "Standard diagnostic confidence")
    ∧ (findMatchFrom techAlts techLooks text.data = none →
        (parseAnalysisResponse text batchId imageCount processingTime).technicalNotes
          = none) := by
  refine ⟨?_, ?_, ?_, ?_, ?_⟩
  · show orFallback (extractField findingsAlts findingsLooks text.data) _ ≠ ""
    unfold orFallback
    rcases extractField findingsAlts findingsLooks text.data with _ | s
    · exact append_dots_ne_empty _
    · by_cases hs : s = "" <;> simp [hs]
      exact append_dots_ne_empty _
  · intro h
    show orFallback (extractField findingsAlts findingsLooks text.data) _ = _
    rw [extractField_eq_none _ _ _ h]
    rfl
  · intro h
    show orFallback (extractField recsAlts recsLooks text.data) _ = _
    rw [extractField_eq_none _ _ _ h]
    rfl
  · intro h
    show orFallback (extractField confAlts confLooks text.data) _ = _
    rw [extractField_eq_none _ _ _ h]
    rfl
  · intro h
    show (extractSections text).technicalNotes = none
    show extractField techAlts techLooks text.data = none
    exact extractField_eq_none _ _ _ h

/-- Witness for `parseAnalysisResponse_total` at the empty input string. -/
theorem parseAnalysisResponse_total_witness :
    (parseAnalysisResponse "" "b" 0 0).findings = "..."
    ∧ (parseAnalysisResponse "" "b" 0 0).recommendations
        = "Please refer to detailed findings above."
    ∧ (parseAnalysisResponse "" "b" 0 0).confidence = "Standard diagnostic confidence"
    ∧ (parseAnalysisResponse "" "b" 0 0).technicalNotes = none := by
  have h := parseAnalysisResponse_total "" "b" 0 0
  refine ⟨?_, h.2.2.1 (by decide), h.2.2.2.1 (by decide), h.2.2.2.2 (by decide)⟩
  rw [h.2.1 (by decide)]
  rfl

/-- C4: evaluation of `extractSections` at inputs with recognized
headings.  In the source, each pattern carries the `g` flag, so
`text.match(pattern)` returns full-match strings without capture groups
and `match[1]` denotes the second full match.  Consequently a text with a
single well-formed `FINDINGS:` heading extracts nothing and falls back to
the truncated raw text, and when the pattern does match twice the
extracted value is the *second* full match with its heading — not the text
between the first heading and the next recognized heading. -/
theorem extractSections_globalFlag_failure :
    (extractSections "FINDINGS: A\nRECOMMENDATIONS: B").findings = none
    ∧ (parseAnalysisResponse "FINDINGS: A\nRECOMMENDATIONS: B" "b" 1 0).findings
        = "FINDINGS: A\nRECOMMENDATIONS: B..."
    ∧ (extractSections "FINDINGS: A\nRECOMMENDATIONS: B\nFINDINGS: C").findings
        = some "FINDINGS: C" := by
  refine ⟨?_, ?_, ?_⟩ <;> decide

lemma altMatchLen_nil (a : HeadAlt) : altMatchLen a [] = none := by
  cases a with
  | lit s =>
    cases s with
    | nil => simp [altMatchLen, startsWithCI, colonAfter]
    | cons c cs => simp [altMatchLen, startsWithCI]
  | followUp => simp [altMatchLen, startsWithCI]

lemma findHead_nil (alts : List HeadAlt) : findHead alts [] = none := by
  unfold findHead
  induction alts with
  | nil => rfl
  | cons a rest ih => simp [List.findSome?_cons, altMatchLen_nil, ih]

lemma findMatchFrom_eq_none (alts : List HeadAlt) (looks : List (List Char))
    (cs : List Char) (h : ∀ i, findHead alts (cs.drop i) = none) :
    findMatchFrom alts looks cs = none := by
  induction cs with
  | nil => rfl
  | cons c t ih =>
    unfold findMatchFrom
    have h0 := h 0
    simp only [List.drop_zero] at h0
    rw [h0]
    exact ih (fun i => h (i + 1))

lemma altMatchLen_colon (a : HeadAlt) (cs : List Char) (n : Nat)
    (h : altMatchLen a cs = some n) : colonAfter (cs.drop n) = true := by
  cases a with
  | lit s =>
    simp only [altMatchLen] at h
    split at h
    · rename_i hc
      injection h with h'
      subst h'
      exact (Bool.and_eq_true _ _ |>.mp hc).2
    · exact Option.noConfusion h
  | followUp =>
    rcases hrest : cs.drop 6 with _ | ⟨c, rest2⟩ <;>
      simp only [altMatchLen, hrest] at h
    · split at h
      · split at h
        · rename_i hz
          simp [startsWithCI] at hz
        · exact Option.noConfusion h
      · exact Option.noConfusion h
    · split at h
      · split at h
        · rename_i hg
          injection h with h'
          subst h'
          have h7 : cs.drop 7 = rest2 := by
            have hd : (cs.drop 6).drop 1 = rest2 := by
              rw [hrest]
              simp
            rw [List.drop_drop] at hd
            simpa using hd
          have h9 : cs.drop 9 = rest2.drop 2 := by
            rw [← h7, List.drop_drop]
          rw [h9]
          exact (Bool.and_eq_true _ _ |>.mp hg).2
        · split at h
          · rename_i hz
            injection h with h'
            subst h'
            have h8 : cs.drop 8 = (c :: rest2).drop 2 := by
              rw [← hrest, List.drop_drop]
            rw [h8]
            exact (Bool.and_eq_true _ _ |>.mp hz).2
          · exact Option.noConfusion h
      · exact Option.noConfusion h
lemma findHead_none_of_alts (alts : List HeadAlt) (cs : List Char)
    (h : ∀ a ∈ alts, altMatchLen a cs = none) : findHead alts cs = none := by
  unfold findHead
  induction alts with
  | nil => rfl
  | cons a rest ih =>
    rw [List.findSome?_cons, h a (by simp)]
    exact ih (fun b hb => h b (by simp [hb]))

lemma findMatchFrom_none_of_bounded (alts : List HeadAlt) (looks : List (List Char))
    (cs : List Char)
    (h : ∀ i, i < cs.length → findHead alts (cs.drop i) = none) :
    findMatchFrom alts looks cs = none := by
  apply findMatchFrom_eq_none
  intro i
  by_cases hi : i < cs.length
  · exact h i hi
  · rw [List.drop_eq_nil_of_le (by omega)]
    exact findHead_nil alts

/-- C10: a section heading is recognized only when the heading keyword is
immediately followed by `':'`.  First conjunct: whenever any heading
alternative matches, the character right after the matched keyword is a
colon.  Remaining conjuncts: in a text where no position carries a
keyword-plus-colon for a field's pattern (in particular, whenever each
keyword occurrence lacks the colon), that field is not extracted and the
parser's fallback value is used instead. -/
theorem headingColon_required (text batchId : String)
    (imageCount processingTime : Nat) :
    (∀ (a : HeadAlt) (cs : List Char) (n : Nat),
        altMatchLen a cs = some n → colonAfter (cs.drop n) = true)
    ∧ ((∀ i, i < text.data.length → findHead findingsAlts (text.data.drop i) = none) →
        (extractSections text).findings = none
        ∧ (parseAnalysisResponse text batchId imageCount processingTime).findings
            = substrTake text 1000 ++ "...")
    ∧ ((∀ i, i < text.data.length → findHead recsAlts (text.data.drop i) = none) →
        (extractSections text).recommendations = none
        ∧ (parseAnalysisResponse text batchId imageCount processingTime).recommendations
            = "Please refer to detailed findings above.")
    ∧ ((∀ i, i < text.data.length → findHead confAlts (text.data.drop i) = none) →
        (extractSections text).confidence = none
        ∧ (parseAnalysisResponse text batchId imageCount processingTime).confidence
            = "Standard diagnostic confidence")
    ∧ ((∀ i, i < text.data.length → findHead techAlts (text.data.drop i) = none) →
        (extractSections text).technicalNotes = none) := by
  refine ⟨altMatchLen_colon, ?_, ?_, ?_, ?_⟩
  · intro h
    have hn := extractField_eq_none findingsAlts findingsLooks text.data
      (findMatchFrom_none_of_bounded _ _ _ h)
    refine ⟨hn, ?_⟩
    show orFallback (extractField findingsAlts findingsLooks text.data) _ = _
    rw [hn]
    rfl
  · intro h
    have hn := extractField_eq_none recsAlts recsLooks text.data
      (findMatchFrom_none_of_bounded _ _ _ h)
    refine ⟨hn, ?_⟩
    show orFallback (extractField recsAlts recsLooks text.data) _ = _
    rw [hn]
    rfl
  · intro h
    have hn := extractField_eq_none confAlts confLooks text.data
      (findMatchFrom_none_of_bounded _ _ _ h)
    refine ⟨hn, ?_⟩
    show orFallback (extractField confAlts confLooks text.data) _ = _
    rw [hn]
    rfl
  · intro h
    exact extractField_eq_none techAlts techLooks text.data
      (findMatchFrom_none_of_bounded _ _ _ h)

/-- Witness for `headingColon_required`: in `"FINDINGS summary"` the
keyword `FINDINGS` occurs but has no colon, so no findings section starts
there and the truncation fallback is used. -/
theorem headingColon_required_witness :
    (extractSections "FINDINGS summary").findings = none
    ∧ (parseAnalysisResponse "FINDINGS summary" "b" 1 0).findings
        = "FINDINGS summary..." := by
  have h := (headingColon_required "FINDINGS summary" "b" 1 0).2.1 (by decide)
  exact ⟨h.1, by rw [h.2]; decide⟩

/-! ## Retry lemmas and claims C2, C3 -/

lemma makeAPIRequest_ok (outcome : Nat → AttemptOutcome) (rc : Nat) (c : Option String)
    (h : outcome rc = .ok c) :
    makeAPIRequest outcome rc = { result := .ok c, delays := [], attempts := 1 } := by
  unfold makeAPIRequest
  rw [h]

lemma makeAPIRequest_err_retry (outcome : Nat → AttemptOutcome) (rc : Nat) (e : ApiError)
    (h : outcome rc = .err e) (hrc : rc < MAX_RETRIES) (hr : isRetryableError e = true) :
    makeAPIRequest outcome rc
      = { result := (makeAPIRequest outcome (rc + 1)).result
          delays := 2 ^ rc * 1000 :: (makeAPIRequest outcome (rc + 1)).delays
          attempts := (makeAPIRequest outcome (rc + 1)).attempts + 1 } := by
  conv_lhs => rw [makeAPIRequest]
  rw [h]
  exact dif_pos ⟨hrc, hr⟩

lemma makeAPIRequest_err_stop (outcome : Nat → AttemptOutcome) (rc : Nat) (e : ApiError)
    (h : outcome rc = .err e) (hstop : ¬(rc < MAX_RETRIES ∧ isRetryableError e = true)) :
    makeAPIRequest outcome rc = { result := .error e, delays := [], attempts := 1 } := by
  conv_lhs => rw [makeAPIRequest]
  rw [h]
  exact dif_neg hstop

lemma makeAPIRequest_attempts_pos (outcome : Nat → AttemptOutcome) (rc : Nat) :
    1 ≤ (makeAPIRequest outcome rc).attempts := by
  rcases ho : outcome rc with c | e
  · rw [makeAPIRequest_ok outcome rc c ho]
  · by_cases hcond : rc < MAX_RETRIES ∧ isRetryableError e = true
    · rw [makeAPIRequest_err_retry outcome rc e ho hcond.1 hcond.2]
      simp
    · rw [makeAPIRequest_err_stop outcome rc e ho hcond]

/-- C2: when every attempt fails with a retryable error, the client makes
exactly `MAX_RETRIES + 1 = 4` attempts, performs the backoff delays
`2^0, 2^1, 2^2` seconds (1000, 2000, 4000 ms) before the three retries,
and surfaces the error of the final attempt. -/
theorem retryExhaustion (outcome : Nat → AttemptOutcome)
    (h : ∀ n, n ≤ MAX_RETRIES → ∃ e, outcome n = .err e ∧ isRetryableError e = true) :
    (makeAPIRequest outcome 0).attempts = 4
    ∧ (makeAPIRequest outcome 0).delays = [1000, 2000, 4000]
    ∧ ∃ e, outcome MAX_RETRIES = .err e
        ∧ (makeAPIRequest outcome 0).result = .error e := by
  obtain ⟨e0, he0, hr0⟩ := h 0 (by decide)
  obtain ⟨e1, he1, hr1⟩ := h 1 (by decide)
  obtain ⟨e2, he2, hr2⟩ := h 2 (by decide)
  obtain ⟨e3, he3, hr3⟩ := h 3 (by decide)
  have r3 : makeAPIRequest outcome 3 = { result := .error e3, delays := [], attempts := 1 } :=
    makeAPIRequest_err_stop outcome 3 e3 he3 (by simp [MAX_RETRIES])
  have r2 : makeAPIRequest outcome 2
      = { result := .error e3, delays := [4000], attempts := 2 } := by
    rw [makeAPIRequest_err_retry outcome 2 e2 he2 (by decide) hr2, r3]
    rfl
  have r1 : makeAPIRequest outcome 1
      = { result := .error e3, delays := [2000, 4000], attempts := 3 } := by
    rw [makeAPIRequest_err_retry outcome 1 e1 he1 (by decide) hr1, r2]
    rfl
  have r0 : makeAPIRequest outcome 0
      = { result := .error e3, delays := [1000, 2000, 4000], attempts := 4 } := by
    rw [makeAPIRequest_err_retry outcome 0 e0 he0 (by decide) hr0, r1]
    rfl
  rw [r0]
  exact ⟨rfl, rfl, e3, he3, rfl⟩

/-- Witness for `retryExhaustion` with a constant 503 failure. -/
theorem retryExhaustion_witness :
    (makeAPIRequest
      (fun _ => .err { name := "Error", message := "API request failed: 503 x - y" }) 0).delays
      = [1000, 2000, 4000]
    ∧ (makeAPIRequest
      (fun _ => .err { name := "Error", message := "API request failed: 503 x - y" }) 0).attempts
      = 4 := by
  have h := retryExhaustion
    (fun _ => .err { name := "Error", message := "API request failed: 503 x - y" })
    (fun n _ => ⟨{ name := "Error", message := "API request failed: 503 x - y" }, rfl, by decide⟩)
  exact ⟨h.2.1, h.1⟩

lemma listStartsWith_append (pat l l' : List Char)
    (h : listStartsWith pat l = true) : listStartsWith pat (l ++ l') = true := by
  induction pat generalizing l with
  | nil => rfl
  | cons p ps ih =>
    cases l with
    | nil => exact absurd h (by simp [listStartsWith])
    | cons c cs =>
      simp only [listStartsWith, Bool.and_eq_true] at h
      simp only [List.cons_append, listStartsWith, Bool.and_eq_true]
      exact ⟨h.1, ih cs h.2⟩

lemma listContainsSeq_nil_pat (l : List Char) : listContainsSeq [] l = true := by
  cases l with
  | nil => rfl
  | cons c cs => simp [listContainsSeq, listStartsWith]

lemma listContainsSeq_append_left (pat l l' : List Char)
    (h : listContainsSeq pat l = true) : listContainsSeq pat (l ++ l') = true := by
  induction l with
  | nil =>
    have hp : pat = [] := by
      cases pat with
      | nil => rfl
      | cons p ps => exact absurd h (by simp [listContainsSeq, listStartsWith])
    subst hp
    exact listContainsSeq_nil_pat l'
  | cons c cs ih =>
    simp only [listContainsSeq, Bool.or_eq_true] at h
    simp only [List.cons_append, listContainsSeq, Bool.or_eq_true]
    rcases h with h | h
    · exact Or.inl (listStartsWith_append pat (c :: cs) l' h)
    · exact Or.inr (ih h)

lemma strIncludes_of_left (s t pat : String) (h : strIncludes s pat = true) :
    strIncludes (s ++ t) pat = true := by
  unfold strIncludes at *
  rw [String.data_append]
  exact listContainsSeq_append_left _ _ _ h

lemma mkHttpError_includes (status : Nat) (st body pat : String)
    (h : strIncludes ("API request failed: " ++ toString status ++ " ") pat = true) :
    strIncludes (mkHttpError status st body).message pat = true := by
  show strIncludes ("API request failed: " ++ toString status ++ " " ++ st ++ " - " ++ body)
    pat = true
  exact strIncludes_of_left _ _ _ (strIncludes_of_left _ _ _ (strIncludes_of_left _ _ _ h))

lemma isRetryableError_true_of_inc (e : ApiError)
    (hname : (e.name == "AbortError") = false)
    (h : strIncludes e.message "429" = true ∨ strIncludes e.message "502" = true
      ∨ strIncludes e.message "503" = true ∨ strIncludes e.message "network" = true) :
    isRetryableError e = true := by
  unfold isRetryableError
  simp only [hname, Bool.false_eq_true, if_false]
  rcases h with h | h | h | h <;> simp [h]

lemma isRetryableError_false_of_noInc (e : ApiError)
    (hname : e.name ≠ "AbortError")
    (h1 : strIncludes e.message "429" = false) (h2 : strIncludes e.message "502" = false)
    (h3 : strIncludes e.message "503" = false)
    (h4 : strIncludes e.message "network" = false) :
    isRetryableError e = false := by
  unfold isRetryableError
  have hname' : (e.name == "AbortError") = false := by
    simp [hname]
  simp [hname', h1, h2, h3, h4]

/-- C3 counterexample: classification is by substring matching on the
error message, not by failure class.  An HTTP 400 response whose body
happens to mention `502` is classified retryable and retried to
exhaustion (4 attempts), although the claim says any other 4xx ends the
submission on its first occurrence; and a transport-level failure with
the browser message `Failed to fetch` is classified non-retryable (no
`network` substring) and given no retry, although the claim says any
transport-level failure is retryable. -/
theorem isRetryableError_misclassification :
    isRetryableError (mkHttpError 400 "Bad Request" "upstream returned 502") = true
    ∧ (makeAPIRequest
        (fun _ => .err (mkHttpError 400 "Bad Request" "upstream returned 502")) 0).attempts = 4
    ∧ isRetryableError (mkTransportError "Failed to fetch") = false
    ∧ (makeAPIRequest (fun _ => .err (mkTransportError "Failed to fetch")) 0).attempts = 1 := by
  have hr : isRetryableError (mkHttpError 400 "Bad Request" "upstream returned 502") = true := by
    decide
  have hnr : isRetryableError (mkTransportError "Failed to fetch") = false := by
    decide
  refine ⟨hr, ?_, hnr, ?_⟩
  · set e := mkHttpError 400 "Bad Request" "upstream returned 502" with he
    set f : Nat → AttemptOutcome := fun _ => .err e with hf
    have r3 : makeAPIRequest f 3 = { result := .error e, delays := [], attempts := 1 } :=
      makeAPIRequest_err_stop f 3 e rfl (by simp [MAX_RETRIES])
    have r2 : makeAPIRequest f 2
        = { result := .error e, delays := [4000], attempts := 2 } := by
      rw [makeAPIRequest_err_retry f 2 e rfl (by decide) hr, r3]
      rfl
    have r1 : makeAPIRequest f 1
        = { result := .error e, delays := [2000, 4000], attempts := 3 } := by
      rw [makeAPIRequest_err_retry f 1 e rfl (by decide) hr, r2]
      rfl
    have r0 : makeAPIRequest f 0
        = { result := .error e, delays := [1000, 2000, 4000], attempts := 4 } := by
      rw [makeAPIRequest_err_retry f 0 e rfl (by decide) hr, r1]
      rfl
    rw [r0]
  · rw [makeAPIRequest_err_stop _ 0 (mkTransportError "Failed to fetch") rfl
      (by rw [hnr]; simp)]

/-- C3 amended: per-attempt failure classification as the code performs
it.  A timeout (`AbortError`) is never retried; an HTTP 429, 502 or 503
failure is always retried (its constructed message contains the status
digits); a transport failure is retried when its message contains the
substring `network`; any failure that is not an `AbortError` and whose
message contains none of `429`, `502`, `503`, `network` ends the
submission at the first attempt with no retry; and a successful exchange
with missing textual content is a terminal error after one attempt. -/
theorem errorClassification (outcome : Nat → AttemptOutcome) :
    (∀ e, outcome 0 = .err e → e.name = "AbortError" →
        makeAPIRequest outcome 0 = { result := .error e, delays := [], attempts := 1 })
    ∧ (∀ status st body, outcome 0 = .err (mkHttpError status st body) →
        (status = 429 ∨ status = 502 ∨ status = 503) →
        2 ≤ (makeAPIRequest outcome 0).attempts
        ∧ (makeAPIRequest outcome 0).delays.head? = some 1000)
    ∧ (∀ m, outcome 0 = .err (mkTransportError m) → strIncludes m "network" = true →
        2 ≤ (makeAPIRequest outcome 0).attempts
        ∧ (makeAPIRequest outcome 0).delays.head? = some 1000)
    ∧ (∀ e, outcome 0 = .err e → e.name ≠ "AbortError" →
        strIncludes e.message "429" = false → strIncludes e.message "502" = false →
        strIncludes e.message "503" = false → strIncludes e.message "network" = false →
        makeAPIRequest outcome 0 = { result := .error e, delays := [], attempts := 1 })
    ∧ (∀ numImages batchId pt, numImages ≠ 0 → ¬ numImages > 20 → outcome 0 = .ok none →
        analyzeImageBatch numImages batchId outcome pt
          = ({ success := false, result := none,
               errorMessage := some "No analysis content received from API" }, 1)) := by
  refine ⟨?_, ?_, ?_, ?_, ?_⟩
  · intro e h hab
    apply makeAPIRequest_err_stop outcome 0 e h
    intro ⟨_, hr⟩
    unfold isRetryableError at hr
    rw [hab] at hr
    simp at hr
  · intro status st body h hs
    have hinc : isRetryableError (mkHttpError status st body) = true := by
      apply isRetryableError_true_of_inc _ (by simp [mkHttpError])
      rcases hs with hs | hs | hs <;> subst hs
      · exact Or.inl (mkHttpError_includes _ _ _ _ (by decide))
      · exact Or.inr (Or.inl (mkHttpError_includes _ _ _ _ (by decide)))
      · exact Or.inr (Or.inr (Or.inl (mkHttpError_includes _ _ _ _ (by decide))))
    rw [makeAPIRequest_err_retry outcome 0 _ h (by decide) hinc]
    constructor
    · have := makeAPIRequest_attempts_pos outcome 1
      show 2 ≤ (makeAPIRequest outcome 1).attempts + 1
      omega
    · rfl
  · intro m h hnet
    have hinc : isRetryableError (mkTransportError m) = true :=
      isRetryableError_true_of_inc _ (by simp [mkTransportError])
        (Or.inr (Or.inr (Or.inr hnet)))
    rw [makeAPIRequest_err_retry outcome 0 _ h (by decide) hinc]
    constructor
    · have := makeAPIRequest_attempts_pos outcome 1
      show 2 ≤ (makeAPIRequest outcome 1).attempts + 1
      omega
    · rfl
  · intro e h hab h1 h2 h3 h4
    apply makeAPIRequest_err_stop outcome 0 e h
    intro ⟨_, hr⟩
    rw [isRetryableError_false_of_noInc e hab h1 h2 h3 h4] at hr
    exact Bool.noConfusion hr
  · intro numImages batchId pt hn0 hn20 h
    unfold analyzeImageBatch
    rw [if_neg hn0, if_neg hn20, makeAPIRequest_ok outcome 0 none h]

/-- Witness for `errorClassification`: a 429 failure on the first attempt
is retried after a 1000 ms backoff, and a plain 404 failure is terminal
after one attempt. -/
theorem errorClassification_witness :
    (makeAPIRequest (fun _ => .err (mkHttpError 429 "Too Many Requests" "slow down")) 0).delays.head?
      = some 1000
    ∧ makeAPIRequest (fun _ => .err { name := "Error", message := "API request failed: 404 Not Found - nope" }) 0
      = { result := .error { name := "Error", message := "API request failed: 404 Not Found - nope" },
          delays := [], attempts := 1 } := by
  refine ⟨?_, ?_⟩
  · exact ((errorClassification
      (fun _ => .err (mkHttpError 429 "Too Many Requests" "slow down"))).2.1
      429 "Too Many Requests" "slow down" rfl (Or.inl rfl)).2
  · exact (errorClassification
      (fun _ => .err { name := "Error", message := "API request failed: 404 Not Found - nope" })).2.2.2.1
      _ rfl (by decide) (by decide) (by decide) (by decide) (by decide)

/-! ## Aggregator (`generateConsolidatedReport`, hooks/use-upload.ts lines
543-578) and claims C6, C7 -/

/-- `ConsolidatedReport` from `lib/types.ts`.  `detailedFindings` keeps the
source's `completedBatches.map(b => b.result!)` shape with `Option` in
place of the unchecked non-null assertion; the report id's wall-clock
component is abstracted as the run end instant. -/
structure ConsolidatedReport where
  id : String
  totalImages : Nat
  totalBatches : Nat
  completedBatches : Nat
  failedBatches : Nat
  overallFindings : String
  detailedFindings : List (Option DiagnosticResult)
  recommendations : List String
  confidence : String
  processingStartTime : Nat
  processingEndTime : Nat
  status : Status
deriving DecidableEq, Repr

/-- The separator joining completed batches' findings. -/
def batchSeparator : String := "\n\n--- BATCH SEPARATOR ---\n\n"

/-- `generateConsolidatedReport` (hooks/use-upload.ts lines 543-578).
`filter(Boolean)` on `b.result?.findings` drops both a missing result and
an empty string, hence the `filterMap` with an emptiness test. -/
def generateConsolidatedReport (batches : List ImageBatch) (totalImages : Nat)
    (startTime endTime : Nat) : ConsolidatedReport :=
  let completedBatches := batches.filter (fun b => b.status == Status.completed)
  let failedBatches := batches.filter (fun b => b.status == Status.error)
  let allFindings := completedBatches.filterMap
    (fun b => match b.result with
      | some r => if r.findings = "" then none else some r.findings
      | none => none)
  let allRecommendations := completedBatches.filterMap
    (fun b => match b.result with
      | some r => if r.recommendations = "" then none else some r.recommendations
      | none => none)
  { id := "report-" ++ toString endTime
    totalImages := totalImages
    totalBatches := batches.length
    completedBatches := completedBatches.length
    failedBatches := failedBatches.length
    overallFindings :=
      if allFindings.length > 0 then
        "Analysis of " ++ toString totalImages ++ " medical images across "
          ++ toString completedBatches.length ++ " batches:\n\n"
          ++ String.intercalate batchSeparator allFindings
      else "No findings available due to processing errors."
    detailedFindings := completedBatches.map (fun b => b.result)
    recommendations := allRecommendations
    confidence :=
      if completedBatches.length > 0 then "Standard diagnostic analysis"
      else "Limited due to processing errors"
    processingStartTime := startTime
    processingEndTime := endTime
    status :=
      if failedBatches.length == batches.length then Status.error else Status.completed }

/-- A completed demo batch carrying findings `f` and recommendations `r`. -/
def demoCompleted (f r : String) : ImageBatch :=
  { idNum := 1, images := [], status := Status.completed,
    result := some { batchId := "b", imageCount := 20, findings := f,
                     recommendations := r, confidence := "c",
                     technicalNotes := none, processingTime := 1 } }

/-- An errored demo batch. -/
def demoErrored : ImageBatch :=
  { idNum := 3, images := [], status := Status.error, error := some "boom" }

/-- C6 counterexample: with 2 completed batches (findings `A`, `B`) and 1
errored batch out of 45 items, the report's summary names the *completed*
batch count (2), not the total group count (3) as the claim states; the
rest of the claimed shape (joined findings, one recommendation per
completed batch) does hold here. -/
theorem consolidatedReport_summary_counterexample :
    (generateConsolidatedReport
        [demoCompleted "A" "RA", demoCompleted "B" "RB", demoErrored] 45 0 1).overallFindings
      = "Analysis of 45 medical images across 2 batches:\n\nA\n\n--- BATCH SEPARATOR ---\n\nB"
    ∧ (generateConsolidatedReport
        [demoCompleted "A" "RA", demoCompleted "B" "RB", demoErrored] 45 0 1).overallFindings
      ≠ "Analysis of 45 medical images across 3 batches:\n\nA\n\n--- BATCH SEPARATOR ---\n\nB"
    ∧ (generateConsolidatedReport
        [demoCompleted "A" "RA", demoCompleted "B" "RB", demoErrored] 45 0 1).recommendations
      = ["RA", "RB"]
    ∧ (generateConsolidatedReport
        [demoCompleted "A" "RA", demoCompleted "B" "RB", demoErrored] 45 0 1).failedBatches
      = 1 := by
  refine ⟨?_, ?_, ?_, ?_⟩ <;> decide

/-- Spec-side description of the report's non-empty section strings of
completed batches, written from the amended claim's words: walk the
terminal set in order; a COMPLETED batch with a present result whose
selected field is non-empty contributes that field verbatim. -/
def specCompletedField (g : DiagnosticResult → String) (batches : List ImageBatch) :
    List String :=
  batches.foldr
    (fun b acc =>
      if b.status = Status.completed then
        match b.result with
        | some r => if g r ≠ "" then g r :: acc else acc
        | none => acc
      else acc) []

/-- Spec-side description of `overallFindings` per the amended claim: a
summary naming the total item count and the *completed* batch count,
followed by the completed batches' non-empty findings joined by the fixed
separator, in terminal-set order; the fixed no-findings message when no
completed batch contributes a non-empty findings string. -/
def specOverallFindings (batches : List ImageBatch) (totalImages : Nat) : String :=
  match specCompletedField DiagnosticResult.findings batches with
  | [] => "No findings available due to processing errors."
  | fs =>
    "Analysis of " ++ toString totalImages ++ " medical images across "
      ++ toString (batches.countP (fun b => b.status == Status.completed))
      ++ " batches:\n\n" ++ String.intercalate batchSeparator fs

/-- Spec-side description of `recommendations` per the amended claim: the
non-empty recommendation strings of completed batches, verbatim, in
terminal-set order. -/
def specRecommendations (batches : List ImageBatch) : List String :=
  specCompletedField DiagnosticResult.recommendations batches

lemma filterMap_completed_eq_spec (g : DiagnosticResult → String)
    (batches : List ImageBatch) :
    (batches.filter (fun b => b.status == Status.completed)).filterMap
        (fun b => match b.result with
          | some r => if g r = "" then none else some (g r)
          | none => none)
      = specCompletedField g batches := by
  induction batches with
  | nil => rfl
  | cons b t ih =>
    unfold specCompletedField at *
    by_cases hb : b.status = Status.completed
    · rw [List.filter_cons_of_pos (by simp [hb]), List.filterMap_cons, List.foldr_cons,
        if_pos hb]
      rcases hr : b.result with _ | r
      · simpa using ih
      · by_cases hg : g r = ""
        · simp [hg, ih]
        · simp [hg, ih]
    · rw [List.filter_cons_of_neg (by simp [hb]), List.foldr_cons, if_neg hb]
      exact ih

/-- C6 amended: for every batch set, `overallFindings` and
`recommendations` of the consolidated report agree with the spec-side
descriptions `specOverallFindings` / `specRecommendations` (summary names
the completed batch count; only non-empty fields of completed batches with
a present result contribute; the fixed message appears exactly when no
non-empty findings exist). -/
theorem consolidatedReport_findings_amended (batches : List ImageBatch)
    (totalImages startTime endTime : Nat) :
    (generateConsolidatedReport batches totalImages startTime endTime).overallFindings
      = specOverallFindings batches totalImages
    ∧ (generateConsolidatedReport batches totalImages startTime endTime).recommendations
      = specRecommendations batches := by
  constructor
  · show (if _ > 0 then _ else _) = _
    rw [filterMap_completed_eq_spec DiagnosticResult.findings batches]
    unfold specOverallFindings
    rcases hfs : specCompletedField DiagnosticResult.findings batches with _ | ⟨f, fs⟩
    · rw [if_neg (by simp)]
    · rw [if_pos (by simp)]
      rw [List.countP_eq_length_filter]
  · exact filterMap_completed_eq_spec DiagnosticResult.recommendations batches

lemma filter_length_eq_length_iff (p : ImageBatch → Bool) (l : List ImageBatch) :
    (l.filter p).length = l.length ↔ ∀ a ∈ l, p a = true := by
  induction l with
  | nil => simp
  | cons a t ih =>
    by_cases ha : p a = true
    · rw [List.filter_cons_of_pos ha]
      simp only [List.length_cons, Nat.succ_inj, ih, List.mem_cons]
      constructor
      · intro h x hx
        rcases hx with hx | hx
        · subst hx
          exact ha
        · exact h x hx
      · intro h x hx
        exact h x (Or.inr hx)
    · rw [List.filter_cons_of_neg ha]
      have hle := List.length_filter_le p t
      simp only [List.length_cons]
      constructor
      · intro h
        omega
      · intro h
        exact absurd (h a (by simp)) ha

/-- C7: for every terminal batch set the consolidated report's status is
ERROR exactly when every batch is ERROR and COMPLETED otherwise (partial
success still reports COMPLETED), and its confidence is the fixed
"standard" label exactly when at least one batch completed and the fixed
"limited" label otherwise. -/
theorem consolidatedReport_status (batches : List ImageBatch)
    (totalImages startTime endTime : Nat)
    (_hterm : ∀ b ∈ batches, b.status = Status.completed ∨ b.status = Status.error) :
    ((generateConsolidatedReport batches totalImages startTime endTime).status
        = Status.error ↔ ∀ b ∈ batches, b.status = Status.error)
    ∧ ((generateConsolidatedReport batches totalImages startTime endTime).status
        = Status.completed ↔ ¬ ∀ b ∈ batches, b.status = Status.error)
    ∧ ((generateConsolidatedReport batches totalImages startTime endTime).confidence
        = "Standard diagnostic analysis" ↔ ∃ b ∈ batches, b.status = Status.completed)
    ∧ ((generateConsolidatedReport batches totalImages startTime endTime).confidence
        = "Limited due to processing errors"
        ↔ ¬ ∃ b ∈ batches, b.status = Status.completed) := by
  have hstat : (generateConsolidatedReport batches totalImages startTime endTime).status
      = (if ((batches.filter (fun b => b.status == Status.error)).length == batches.length)
          then Status.error else Status.completed) := rfl
  have hconf : (generateConsolidatedReport batches totalImages startTime endTime).confidence
      = (if (batches.filter (fun b => b.status == Status.completed)).length > 0
          then "Standard diagnostic analysis" else "Limited due to processing errors") := rfl
  have hall : ((batches.filter (fun b => b.status == Status.error)).length == batches.length)
      = true ↔ ∀ b ∈ batches, b.status = Status.error := by
    rw [beq_iff_eq, filter_length_eq_length_iff]
    constructor
    · intro h b hb
      simpa using h b hb
    · intro h b hb
      simp [h b hb]
  have hex : ((batches.filter (fun b => b.status == Status.completed)).length > 0)
      ↔ ∃ b ∈ batches, b.status = Status.completed := by
    rw [gt_iff_lt, List.length_pos]
    constructor
    · intro hne
      obtain ⟨b, hb⟩ := List.exists_mem_of_ne_nil _ hne
      rw [List.mem_filter] at hb
      exact ⟨b, hb.1, by simpa using hb.2⟩
    · rintro ⟨b, hb, hs⟩
      intro hnil
      have hmem : b ∈ batches.filter (fun b => b.status == Status.completed) :=
        List.mem_filter.mpr ⟨hb, by simp [hs]⟩
      rw [hnil] at hmem
      exact absurd hmem (List.not_mem_nil b)
  rw [hstat, hconf]
  by_cases hc : ((batches.filter (fun b => b.status == Status.error)).length == batches.length)
      = true
  · rw [if_pos hc]
    have h1 := hall.mp hc
    by_cases he : (batches.filter (fun b => b.status == Status.completed)).length > 0
    · rw [if_pos he]
      exact ⟨iff_of_true rfl h1, iff_of_false (by simp) (fun hn => hn h1),
        iff_of_true rfl (hex.mp he), iff_of_false (by decide) (fun hn => hn (hex.mp he))⟩
    · rw [if_neg he]
      have h2 : ¬ ∃ b ∈ batches, b.status = Status.completed := fun h => he (hex.mpr h)
      exact ⟨iff_of_true rfl h1, iff_of_false (by simp) (fun hn => hn h1),
        iff_of_false (by decide) h2, iff_of_true rfl h2⟩
  · rw [if_neg hc]
    have h1 : ¬ ∀ b ∈ batches, b.status = Status.error := fun h => hc (hall.mpr h)
    by_cases he : (batches.filter (fun b => b.status == Status.completed)).length > 0
    · rw [if_pos he]
      exact ⟨iff_of_false (by simp) h1, iff_of_true rfl h1,
        iff_of_true rfl (hex.mp he), iff_of_false (by decide) (fun hn => hn (hex.mp he))⟩
    · rw [if_neg he]
      have h2 : ¬ ∃ b ∈ batches, b.status = Status.completed := fun h => he (hex.mpr h)
      exact ⟨iff_of_false (by simp) h1, iff_of_true rfl h1,
        iff_of_false (by decide) h2, iff_of_true rfl h2⟩

/-- Witness for `consolidatedReport_status` on one completed and one
errored batch: partial success reports COMPLETED with the standard
confidence label. -/
theorem consolidatedReport_status_witness :
    (generateConsolidatedReport [demoCompleted "A" "RA", demoErrored] 45 0 1).status
      = Status.completed
    ∧ (generateConsolidatedReport [demoCompleted "A" "RA", demoErrored] 45 0 1).confidence
      = "Standard diagnostic analysis" := by
  have h := consolidatedReport_status [demoCompleted "A" "RA", demoErrored] 45 0 1
    (by decide)
  exact ⟨h.2.1.mpr (by decide), h.2.2.1.mpr (by decide)⟩

/-! ## Progress tracking (`startAnalysis` / `processBatch`,
hooks/use-upload.ts lines 383-443 and 487-496) and claim C8

`processBatch` ends in one of two ways.  On the response path (the API
call returns, lines 407-434) it increments `completedCount` or
`failedCount` and recomputes
`overallProgress = Math.round((completedCount + failedCount) /
state.batches.length * 100)`.  On the local exception path (the `catch`
at lines 436-443, reachable when preparing the images throws) it
increments `failedCount` and pushes the errored batch but performs no
progress update.  At the end of the run `startAnalysis` (lines 487-496)
unconditionally sets `overallProgress` to 100.  A run's terminal
transitions are modelled as a list of events folded over the counters. -/

/-- `Math.round((k / total) * 100)` as exact rational rounding:
`⌊100k/total + 1/2⌋ = (200k + total) / (2 total)`.  The app caps uploads
at 200 images, so `total ≤ 10` batches, where the JavaScript
floating-point computation is exact. -/
def jsRoundPct (k total : Nat) : Nat := (200 * k + total) / (2 * total)

/-- The two ways a batch reaches a terminal state in `processBatch`. -/
inductive TerminalEvent where
  | responded (success : Bool)
  | exceptionPath
deriving DecidableEq, Repr

/-- The closure counters of `startAnalysis` plus the published
`overallProgress`. -/
structure ProgressState where
  completed : Nat
  failed : Nat
  progress : Nat
deriving DecidableEq, Repr

/-- One terminal transition: the response path updates a counter and
recomputes the percentage; the exception path updates only the failure
counter. -/
def stepTerminal (total : Nat) (s : ProgressState) : TerminalEvent → ProgressState
  | .responded success =>
    let c := if success then s.completed + 1 else s.completed
    let f := if success then s.failed else s.failed + 1
    { completed := c, failed := f, progress := jsRoundPct (c + f) total }
  | .exceptionPath => { s with failed := s.failed + 1 }

/-- The counters over a run's terminal transitions, from the zeroed state
`startAnalysis` installs before processing. -/
def runProgress (total : Nat) (events : List TerminalEvent) : ProgressState :=
  events.foldl (stepTerminal total) { completed := 0, failed := 0, progress := 0 }

/-- The unconditional `overallProgress: 100` update at the end of
`startAnalysis` (lines 487-496). -/
def finalizeProgress (s : ProgressState) : ProgressState := { s with progress := 100 }

lemma stepTerminal_counters (total : Nat) (s : ProgressState) (e : TerminalEvent) :
    (stepTerminal total s e).completed + (stepTerminal total s e).failed
      = s.completed + s.failed + 1 := by
  cases e with
  | responded success => cases success <;> simp [stepTerminal] <;> omega
  | exceptionPath => simp [stepTerminal]; omega

lemma foldl_stepTerminal_counters (total : Nat) (events : List TerminalEvent)
    (s : ProgressState) :
    (events.foldl (stepTerminal total) s).completed
        + (events.foldl (stepTerminal total) s).failed
      = s.completed + s.failed + events.length := by
  induction events generalizing s with
  | nil => simp
  | cons e t ih =>
    rw [List.foldl_cons, ih, stepTerminal_counters]
    simp
    omega

lemma jsRoundPct_mono (total : Nat) {k k' : Nat} (h : k ≤ k') :
    jsRoundPct k total ≤ jsRoundPct k' total :=
  Nat.div_le_div_right (by omega)

lemma stepTerminal_responded_progress (total : Nat) (s : ProgressState) (ok : Bool) :
    (stepTerminal total s (.responded ok)).progress
      = jsRoundPct (s.completed + s.failed + 1) total := by
  cases ok <;> simp [stepTerminal] <;> congr 1 <;> omega

lemma foldl_stepTerminal_progress_le (total : Nat) (events : List TerminalEvent)
    (s : ProgressState) (hs : s.progress ≤ jsRoundPct (s.completed + s.failed) total) :
    (events.foldl (stepTerminal total) s).progress
      ≤ jsRoundPct ((events.foldl (stepTerminal total) s).completed
          + (events.foldl (stepTerminal total) s).failed) total := by
  induction events generalizing s with
  | nil => exact hs
  | cons e t ih =>
    rw [List.foldl_cons]
    apply ih
    rw [stepTerminal_counters]
    cases e with
    | responded ok => rw [stepTerminal_responded_progress]
    | exceptionPath =>
      show s.progress ≤ _
      exact hs.trans (jsRoundPct_mono total (by omega))

lemma runProgress_append (total : Nat) (events : List TerminalEvent) (e : TerminalEvent) :
    runProgress total (events ++ [e]) = stepTerminal total (runProgress total events) e := by
  simp [runProgress, List.foldl_append]

lemma jsRoundPct_eq_100_iff (total n : Nat) (ht : 0 < total) (ht2 : total ≤ 199)
    (hn : n ≤ total) : jsRoundPct n total = 100 ↔ n = total := by
  unfold jsRoundPct
  constructor
  · intro h
    have h100 : 100 ≤ (200 * n + total) / (2 * total) := by omega
    rw [Nat.le_div_iff_mul_le (by omega)] at h100
    omega
  · intro h
    subst h
    apply Nat.div_eq_of_lt_le
    · omega
    · omega

/-- C8 counterexample: a batch whose processing throws locally (the
`catch` path of `processBatch`) is a terminal transition that increments
the failure counter but does not recompute `overallProgress`.  With 2
batches, after one exception-path transition the counters read 1 terminal
batch while `overallProgress` is still 0, not
`round(100 * 1 / 2) = 50` as the claim requires after every terminal
transition. -/
theorem progressUpdate_counterexample :
    (runProgress 2 [TerminalEvent.exceptionPath]).completed
        + (runProgress 2 [TerminalEvent.exceptionPath]).failed = 1
    ∧ jsRoundPct 1 2 = 50
    ∧ (runProgress 2 [TerminalEvent.exceptionPath]).progress = 0
    ∧ (runProgress 2 [TerminalEvent.exceptionPath]).progress
        ≠ jsRoundPct
            ((runProgress 2 [TerminalEvent.exceptionPath]).completed
              + (runProgress 2 [TerminalEvent.exceptionPath]).failed) 2 := by
  refine ⟨?_, ?_, ?_, ?_⟩ <;> decide

/-- C8 amended: progress is recomputed only on response-path terminal
transitions, where it equals `round(100 * (completed + failed) / total)`;
an exception-path transition increments the failure counter and leaves
progress unchanged until the next recomputation; progress is monotone
non-decreasing over every run; a response-path recomputation yields 100
exactly when all batches are then terminal (for the reachable run sizes,
`total ≤ 199`); and the end-of-run update unconditionally publishes
100. -/
theorem progressRecompute_amended (total : Nat) (events : List TerminalEvent) :
    (∀ ok, (runProgress total (events ++ [TerminalEvent.responded ok])).progress
        = jsRoundPct (events.length + 1) total)
    ∧ ((runProgress total (events ++ [TerminalEvent.exceptionPath])).progress
        = (runProgress total events).progress)
    ∧ ((runProgress total (events ++ [TerminalEvent.exceptionPath])).failed
        = (runProgress total events).failed + 1)
    ∧ (∀ e, (runProgress total events).progress
        ≤ (runProgress total (events ++ [e])).progress)
    ∧ (0 < total → total ≤ 199 → events.length + 1 ≤ total →
        ∀ ok, ((runProgress total (events ++ [TerminalEvent.responded ok])).progress = 100
          ↔ events.length + 1 = total))
    ∧ (finalizeProgress (runProgress total events)).progress = 100 := by
  have hcount : (runProgress total events).completed + (runProgress total events).failed
      = events.length := by
    have := foldl_stepTerminal_counters total events
      { completed := 0, failed := 0, progress := 0 }
    simpa [runProgress] using this
  have hresp : ∀ ok, (runProgress total (events ++ [TerminalEvent.responded ok])).progress
      = jsRoundPct (events.length + 1) total := by
    intro ok
    rw [runProgress_append, stepTerminal_responded_progress, hcount]
  have hinv : (runProgress total events).progress
      ≤ jsRoundPct ((runProgress total events).completed
          + (runProgress total events).failed) total := by
    apply foldl_stepTerminal_progress_le
    simp [jsRoundPct]
  refine ⟨hresp, ?_, ?_, ?_, ?_, rfl⟩
  · rw [runProgress_append]
    rfl
  · rw [runProgress_append]
    rfl
  · intro e
    rw [runProgress_append]
    cases e with
    | responded ok =>
      rw [stepTerminal_responded_progress]
      calc (runProgress total events).progress
          ≤ jsRoundPct ((runProgress total events).completed
              + (runProgress total events).failed) total := hinv
        _ ≤ _ := jsRoundPct_mono total (by omega)
    | exceptionPath => exact Nat.le_refl _
  · intro ht ht2 hlen ok
    rw [hresp ok]
    exact jsRoundPct_eq_100_iff total (events.length + 1) ht ht2 hlen

/-- Witness for `progressRecompute_amended` at a 2-batch run: the first
response-path completion publishes 50 percent, which is not yet 100. -/
theorem progressRecompute_amended_witness :
    (runProgress 2 [TerminalEvent.responded true]).progress = 50
    ∧ ¬ (runProgress 2 [TerminalEvent.responded true]).progress = 100 := by
  have h := progressRecompute_amended 2 []
  have h1 : (runProgress 2 [TerminalEvent.responded true]).progress = jsRoundPct 1 2 := by
    have := h.1 true
    simpa using this
  have h2 := (h.2.2.2.2.1 (by decide) (by decide) (by decide) true)
  constructor
  · rw [h1]
    decide
  · intro hc
    have : (0 : Nat) + 1 = 2 := by
      apply ((by simpa using h2 : ((runProgress 2 [TerminalEvent.responded true]).progress
        = 100 ↔ 0 + 1 = 2))).mp
      exact hc
    omega

/-! ## Concurrency-bounded scheduling (`startAnalysis`, hooks/use-upload.ts
lines 378-381 and 446-471) and claim C9

The loop keeps a queue `batchQueue` and a pool `activeBatches` of
outstanding `processBatch` promises.  Each iteration first shifts batches
from the queue into the pool while `activeBatches.length < maxConcurrent`,
then awaits `Promise.race` and splices out every promise that has already
settled (at least one, since the race returned).  A batch is in the
PROCESSING state exactly while its promise is outstanding, so the pool's
size bounds the number of simultaneously processing batches.  The
embedding is an interleaving state machine over batch identifiers:
`SchedStep` gives the two primitive transitions with the code's guards,
and `schedRun` is the driver loop, with the number of promises found
settled per iteration supplied by an oracle. -/

/-- `maxConcurrent` (hooks/use-upload.ts line 379). -/
def maxConcurrent : Nat := 3

/-- Scheduler state: the batch queue, the identifiers whose promise is
outstanding (PROCESSING), and the settled (terminal) ones in settlement
order. -/
structure SchedState where
  pending : List Nat
  active : List Nat
  finished : List Nat
deriving DecidableEq, Repr

/-- The primitive scheduler transitions.  `admit` is
`batchQueue.shift()` under the guard `activeBatches.length <
maxConcurrent`; `settle` removes one settled promise from the pool. -/
inductive SchedStep : SchedState → SchedState → Prop where
  | admitOne (s : SchedState) (b : Nat) (rest : List Nat) :
      s.pending = b :: rest → s.active.length < maxConcurrent →
      SchedStep s ⟨rest, s.active ++ [b], s.finished⟩
  | settle (s : SchedState) (b : Nat) (h : b ∈ s.active) :
      SchedStep s ⟨s.pending, s.active.erase b, s.finished ++ [b]⟩

/-- The scheduler's initial state for a run over `batches`. -/
def initSched (batches : List Nat) : SchedState := ⟨batches, [], []⟩

/-- The inner admission loop
`while (batchQueue.length > 0 && activeBatches.length < maxConcurrent)`,
over explicit components. -/
def admitFillAux (pending active finished : List Nat) : SchedState :=
  match pending with
  | [] => ⟨[], active, finished⟩
  | b :: rest =>
    if active.length < maxConcurrent then admitFillAux rest (active ++ [b]) finished
    else ⟨b :: rest, active, finished⟩

/-- The admission phase of one outer-loop iteration. -/
def admitFill (s : SchedState) : SchedState :=
  admitFillAux s.pending s.active s.finished

/-- Removal of one settled promise (the identity when the pool is
empty). -/
def settleBatch (s : SchedState) : SchedState :=
  match s.active with
  | [] => s
  | b :: rest => ⟨s.pending, rest, s.finished ++ [b]⟩

/-- Removal of `k` settled promises. -/
def settleMany : Nat → SchedState → SchedState
  | 0, s => s
  | k + 1, s => settleMany k (settleBatch s)

/-- One iteration of the outer loop: fill the free slots, then remove the
promises found settled — at least one (the `Promise.race` returned) and
at most the pool size. -/
def schedRound (k : Nat) (s : SchedState) : SchedState :=
  settleMany (min (k + 1) (admitFill s).active.length) (admitFill s)

lemma admitFillAux_sum (pending active finished : List Nat) :
    (admitFillAux pending active finished).pending.length
        + (admitFillAux pending active finished).active.length
      = pending.length + active.length := by
  induction pending generalizing active with
  | nil => simp [admitFillAux]
  | cons b rest ih =>
    unfold admitFillAux
    by_cases h : active.length < maxConcurrent
    · rw [if_pos h, ih]
      simp
      omega
    · rw [if_neg h]

lemma admitFillAux_active_le (pending active finished : List Nat) :
    active.length ≤ (admitFillAux pending active finished).active.length := by
  induction pending generalizing active with
  | nil => simp [admitFillAux]
  | cons b rest ih =>
    unfold admitFillAux
    by_cases h : active.length < maxConcurrent
    · rw [if_pos h]
      have := ih (active ++ [b])
      simp at this
      omega
    · rw [if_neg h]

lemma admitFillAux_bound (pending active finished : List Nat)
    (h : active.length ≤ maxConcurrent) :
    (admitFillAux pending active finished).active.length ≤ maxConcurrent := by
  induction pending generalizing active with
  | nil => simpa [admitFillAux] using h
  | cons b rest ih =>
    unfold admitFillAux
    by_cases hlt : active.length < maxConcurrent
    · rw [if_pos hlt]
      apply ih
      simp
      omega
    · rw [if_neg hlt]
      exact h

lemma admitFillAux_active_pos (pending active finished : List Nat)
    (h : pending ≠ [] ∨ 0 < active.length) :
    0 < (admitFillAux pending active finished).active.length := by
  cases pending with
  | nil =>
    rcases h with h | h
    · exact absurd rfl h
    · simpa [admitFillAux] using h
  | cons b rest =>
    unfold admitFillAux
    by_cases hlt : active.length < maxConcurrent
    · rw [if_pos hlt]
      have := admitFillAux_active_le rest (active ++ [b]) finished
      simp at this
      omega
    · rw [if_neg hlt]
      show 0 < active.length
      simp only [maxConcurrent] at hlt
      omega

lemma admitFillAux_full (pending active finished : List Nat)
    (h : (admitFillAux pending active finished).pending ≠ []) :
    maxConcurrent ≤ (admitFillAux pending active finished).active.length := by
  induction pending generalizing active with
  | nil => simp [admitFillAux] at h
  | cons b rest ih =>
    unfold admitFillAux at h ⊢
    by_cases hlt : active.length < maxConcurrent
    · rw [if_pos hlt] at h ⊢
      exact ih (active ++ [b]) h
    · rw [if_neg hlt]
      show maxConcurrent ≤ active.length
      omega

lemma admitFillAux_perm (pending active finished : List Nat) :
    ((admitFillAux pending active finished).pending
        ++ (admitFillAux pending active finished).active
        ++ (admitFillAux pending active finished).finished).Perm
      (pending ++ active ++ finished) := by
  induction pending generalizing active with
  | nil => simp [admitFillAux]
  | cons b rest ih =>
    unfold admitFillAux
    by_cases h : active.length < maxConcurrent
    · rw [if_pos h]
      refine (ih (active ++ [b])).trans ?_
      apply List.Perm.append_right finished
      have h1 : rest ++ (active ++ [b]) = (rest ++ active) ++ [b] := by
        rw [List.append_assoc]
      have h2 : (b :: rest) ++ active = b :: (rest ++ active) := rfl
      rw [h1, h2]
      exact List.perm_append_singleton b (rest ++ active)
    · rw [if_neg h]

lemma admitFillAux_reach (pending active finished : List Nat) :
    Relation.ReflTransGen SchedStep ⟨pending, active, finished⟩
      (admitFillAux pending active finished) := by
  induction pending generalizing active with
  | nil => exact Relation.ReflTransGen.refl
  | cons b rest ih =>
    unfold admitFillAux
    by_cases h : active.length < maxConcurrent
    · rw [if_pos h]
      exact Relation.ReflTransGen.head
        (SchedStep.admitOne ⟨b :: rest, active, finished⟩ b rest rfl h) (ih (active ++ [b]))
    · rw [if_neg h]

lemma settleBatch_pending (s : SchedState) : (settleBatch s).pending = s.pending := by
  unfold settleBatch
  rcases s.active with _ | ⟨b, rest⟩ <;> rfl

lemma settleBatch_finished_mono (s : SchedState) :
    ∃ t, (settleBatch s).finished = s.finished ++ t := by
  unfold settleBatch
  rcases s.active with _ | ⟨b, rest⟩
  · exact ⟨[], by simp⟩
  · exact ⟨[b], rfl⟩

lemma settleBatch_active_len (s : SchedState) (h : s.active ≠ []) :
    (settleBatch s).active.length = s.active.length - 1 := by
  unfold settleBatch
  rcases ha : s.active with _ | ⟨b, rest⟩
  · exact absurd ha h
  · simp

lemma settleBatch_perm (s : SchedState) :
    ((settleBatch s).pending ++ (settleBatch s).active ++ (settleBatch s).finished).Perm
      (s.pending ++ s.active ++ s.finished) := by
  unfold settleBatch
  rcases ha : s.active with _ | ⟨b, rest⟩
  · simp [ha]
  · simp only [ha]
    rw [List.append_assoc, List.append_assoc]
    apply List.Perm.append_left s.pending
    have h1 : rest ++ (s.finished ++ [b]) = (rest ++ s.finished) ++ [b] := by
      rw [List.append_assoc]
    have h2 : (b :: rest) ++ s.finished = b :: (rest ++ s.finished) := rfl
    rw [h1]
    exact (List.perm_append_singleton b (rest ++ s.finished)).trans (by rw [h2])

lemma settleBatch_reach (s : SchedState) :
    Relation.ReflTransGen SchedStep s (settleBatch s) := by
  unfold settleBatch
  rcases ha : s.active with _ | ⟨b, rest⟩
  · exact Relation.ReflTransGen.refl
  · have hb : b ∈ s.active := by
      rw [ha]
      simp
    have hstep := SchedStep.settle s b hb
    rw [ha, List.erase_cons_head] at hstep
    exact Relation.ReflTransGen.single hstep

lemma settleMany_pending (k : Nat) (s : SchedState) :
    (settleMany k s).pending = s.pending := by
  induction k generalizing s with
  | zero => rfl
  | succ k ih => rw [settleMany, ih, settleBatch_pending]

lemma settleMany_active_len (k : Nat) (s : SchedState) (h : k ≤ s.active.length) :
    (settleMany k s).active.length = s.active.length - k := by
  induction k generalizing s with
  | zero => simp [settleMany]
  | succ k ih =>
    rw [settleMany]
    have hne : s.active ≠ [] := by
      intro hnil
      rw [hnil] at h
      simp at h
    rw [ih _ (by rw [settleBatch_active_len s hne]; omega), settleBatch_active_len s hne]
    omega

lemma settleMany_perm (k : Nat) (s : SchedState) :
    ((settleMany k s).pending ++ (settleMany k s).active ++ (settleMany k s).finished).Perm
      (s.pending ++ s.active ++ s.finished) := by
  induction k generalizing s with
  | zero => exact List.Perm.refl _
  | succ k ih => exact (ih (settleBatch s)).trans (settleBatch_perm s)

lemma settleMany_reach (k : Nat) (s : SchedState) :
    Relation.ReflTransGen SchedStep s (settleMany k s) := by
  induction k generalizing s with
  | zero => exact Relation.ReflTransGen.refl
  | succ k ih => exact (settleBatch_reach s).trans (ih (settleBatch s))

lemma schedRound_decrease (k : Nat) (s : SchedState)
    (h : ¬(s.pending = [] ∧ s.active = [])) :
    (schedRound k s).pending.length + (schedRound k s).active.length
      < s.pending.length + s.active.length := by
  unfold schedRound
  have hsum := admitFillAux_sum s.pending s.active s.finished
  have hpos : 0 < (admitFill s).active.length := by
    apply admitFillAux_active_pos
    by_cases hp : s.pending = []
    · right
      rcases ha : s.active with _ | ⟨b, rest⟩
      · exact absurd ⟨hp, ha⟩ h
      · simp [ha]
    · exact Or.inl hp
  have hmin : min (k + 1) (admitFill s).active.length ≤ (admitFill s).active.length :=
    Nat.min_le_right _ _
  have hmin1 : 1 ≤ min (k + 1) (admitFill s).active.length := by
    apply le_min <;> omega
  rw [settleMany_pending, settleMany_active_len _ _ hmin]
  show (admitFill s).pending.length + _ < _
  unfold admitFill at *
  omega

lemma schedRound_perm (k : Nat) (s : SchedState) :
    ((schedRound k s).pending ++ (schedRound k s).active ++ (schedRound k s).finished).Perm
      (s.pending ++ s.active ++ s.finished) := by
  unfold schedRound
  refine (settleMany_perm _ _).trans ?_
  exact admitFillAux_perm s.pending s.active s.finished

lemma schedRound_reach (k : Nat) (s : SchedState) :
    Relation.ReflTransGen SchedStep s (schedRound k s) := by
  unfold schedRound
  refine Relation.ReflTransGen.trans ?_ (settleMany_reach _ _)
  have := admitFillAux_reach s.pending s.active s.finished
  exact this

/-- The outer loop `while (batchQueue.length > 0 || activeBatches.length >
0)`: apply `schedRound` until queue and pool are empty; the oracle gives
how many promises settle each iteration. -/
def schedRun (oracle : Nat → Nat) (i : Nat) (s : SchedState) : SchedState :=
  if h : s.pending = [] ∧ s.active = [] then s
  else schedRun oracle (i + 1) (schedRound (oracle i) s)
termination_by s.pending.length + s.active.length
decreasing_by exact schedRound_decrease _ _ h

lemma schedRun_final (oracle : Nat → Nat) (i : Nat) (s : SchedState) :
    (schedRun oracle i s).pending = [] ∧ (schedRun oracle i s).active = [] := by
  by_cases h : s.pending = [] ∧ s.active = []
  · rw [schedRun, dif_pos h]
    exact h
  · rw [schedRun, dif_neg h]
    exact schedRun_final oracle (i + 1) (schedRound (oracle i) s)
termination_by s.pending.length + s.active.length
decreasing_by exact schedRound_decrease _ _ h

lemma schedRun_perm (oracle : Nat → Nat) (i : Nat) (s : SchedState) :
    ((schedRun oracle i s).pending ++ (schedRun oracle i s).active
        ++ (schedRun oracle i s).finished).Perm
      (s.pending ++ s.active ++ s.finished) := by
  by_cases h : s.pending = [] ∧ s.active = []
  · rw [schedRun, dif_pos h]
  · rw [schedRun, dif_neg h]
    exact (schedRun_perm oracle (i + 1) (schedRound (oracle i) s)).trans
      (schedRound_perm (oracle i) s)
termination_by s.pending.length + s.active.length
decreasing_by exact schedRound_decrease _ _ h

lemma schedRun_reach (oracle : Nat → Nat) (i : Nat) (s : SchedState) :
    Relation.ReflTransGen SchedStep s (schedRun oracle i s) := by
  by_cases h : s.pending = [] ∧ s.active = []
  · rw [schedRun, dif_pos h]
  · rw [schedRun, dif_neg h]
    exact (schedRound_reach (oracle i) s).trans
      (schedRun_reach oracle (i + 1) (schedRound (oracle i) s))
termination_by s.pending.length + s.active.length
decreasing_by exact schedRound_decrease _ _ h

/-- C9: scheduler safety and admission.  First conjunct: in every state
reachable from the initial state by the guarded transitions — which, by
the reachability conjunct, covers every observable instant of the
driver's run — at most `maxConcurrent = 3` batches are PROCESSING.
Second conjunct: for every settlement oracle the run terminates with an
empty queue and pool, having driven every batch (a permutation of the
initial queue) to the terminal set, so every pending batch is eventually
admitted.  Third conjunct: the admission phase leaves a batch pending
only when all `maxConcurrent` slots are taken, i.e. a free slot is
refilled immediately. -/
theorem schedulerBounded (batches : List Nat) :
    (∀ s : SchedState,
        Relation.ReflTransGen SchedStep (initSched batches) s →
        s.active.length ≤ maxConcurrent)
    ∧ (∀ oracle : Nat → Nat,
        Relation.ReflTransGen SchedStep (initSched batches)
          (schedRun oracle 0 (initSched batches))
        ∧ (schedRun oracle 0 (initSched batches)).pending = []
        ∧ (schedRun oracle 0 (initSched batches)).active = []
        ∧ ((schedRun oracle 0 (initSched batches)).finished).Perm batches)
    ∧ (∀ s : SchedState, (admitFill s).pending ≠ [] →
        maxConcurrent ≤ (admitFill s).active.length) := by
  refine ⟨?_, ?_, ?_⟩
  · intro s h
    induction h with
    | refl => simp [initSched]
    | tail hsteps hstep ih =>
      cases hstep with
      | admitOne b rest hp hlt =>
        show (_ ++ [b]).length ≤ maxConcurrent
        rw [List.length_append]
        simp only [List.length_singleton]
        omega
      | settle b hb =>
        have hlen := List.length_erase_of_mem hb
        show (List.erase _ b).length ≤ maxConcurrent
        omega
  · intro oracle
    have hfin := schedRun_final oracle 0 (initSched batches)
    have hperm := schedRun_perm oracle 0 (initSched batches)
    rw [hfin.1, hfin.2] at hperm
    simp only [initSched, List.append_nil, List.nil_append] at hperm
    exact ⟨schedRun_reach oracle 0 (initSched batches), hfin.1, hfin.2, hperm⟩
  · intro s h
    exact admitFillAux_full s.pending s.active s.finished h

/-- Witness for `schedulerBounded` on a four-batch queue: the initial
state is within the bound, and after the admission phase with all three
slots taken the fourth batch waits. -/
theorem schedulerBounded_witness :
    (initSched [1, 2, 3, 4]).active.length ≤ maxConcurrent
    ∧ maxConcurrent ≤ (admitFill (initSched [1, 2, 3, 4])).active.length := by
  constructor
  · exact (schedulerBounded [1, 2, 3, 4]).1 (initSched [1, 2, 3, 4])
      Relation.ReflTransGen.refl
  · exact (schedulerBounded [1, 2, 3, 4]).2.2 (initSched [1, 2, 3, 4]) (by decide)
